import Mathlib

/-!
Shallow embedding of the build script src/build.py (an incremental build
driver for a dockerized game-engine workspace) and proofs about the
properties its specification claims.

Modelling conventions:
- Filesystem paths relative to the workspace root ROOT are either raw
  strings (for the string-processing code: filters, cache-file naming) or
  lists of path segments (for the filesystem-walking code: owner
  resolution, fingerprinting).
- The filesystem is a finite set of existing file paths.
- Python string primitives (split, strip, lstrip, single-character
  replace, pathlib suffix) are reimplemented with their exact Python
  semantics on lists of characters.
- SHA-256 is modelled as a deterministic injective encoding of its input
  byte stream (hex_of_stream); every claim proved here only needs that
  equal input streams produce equal digests, which holds of the real
  SHA-256 as well.
- Byte strings are lists of naturals; UTF-8 encoding of a path string is
  modelled by its character code points (injective, and no claim here
  depends on the exact bytes).
-/

namespace SboxBuild

/-! ## Python string primitives -/

/-- Python str.split(sep) with a one-character separator: splits at every
occurrence and keeps empty pieces, so that the empty string splits to
one empty piece. -/
def pySplit (sep : Char) : List Char → List (List Char)
  | [] => [[]]
  | c :: rest =>
    match pySplit sep rest with
    | [] => [[]]
    | h :: t => if c = sep then [] :: h :: t else (c :: h) :: t

/-- The characters Python str.strip() removes (ASCII whitespace). -/
def isPySpace (c : Char) : Bool :=
  c = ' ' || c = '\t' || c = '\n' || c = '\r' || c = '\x0b' || c = '\x0c'

/-- Python str.strip(): drop leading and trailing whitespace. -/
def pyStrip (s : List Char) : List Char :=
  ((s.dropWhile isPySpace).reverse.dropWhile isPySpace).reverse

/-- Python str.lstrip("./"): drop every leading character that is a dot
or a slash. -/
def pyLstripDotSlash (s : List Char) : List Char :=
  s.dropWhile (fun c => c = '.' || c = '/')

/-- Python str.replace(pat, repl) with a one-character pattern. -/
def replace1 (pat : Char) (repl : List Char) (s : List Char) : List Char :=
  s.flatMap (fun c => if c = pat then repl else [c])

/-- The components of a POSIX pathlib.PurePath built from a string:
split on the slash, dropping empty components and single-dot
components. -/
def pathParts (s : List Char) : List (List Char) :=
  (pySplit '/' s).filter (fun seg => seg ≠ [] ∧ seg ≠ ['.'])

/-- pathlib PurePath.name: the final component, or empty. -/
def pathName (s : List Char) : List Char :=
  (pathParts s).getLast?.getD []

/-- The extension of a file name, as pathlib computes it: the part of the
name from its last dot, provided that dot is neither the first nor the
last character of the name. -/
def nameSuffix (n : List Char) : List Char :=
  let tl := n.reverse.takeWhile (fun c => c != '.')
  if tl.length = n.length then []
  else if 0 < n.length - tl.length - 1 ∧ tl.length ≠ 0 then '.' :: tl.reverse
  else []

/-- pathlib Path(s).suffix for a relative POSIX path string. -/
def pySuffix (s : List Char) : String :=
  (nameSuffix (pathName s)).asString

/-! ## Constant tables from the script -/

def IGNORE_DIRS : List String :=
  [".git", ".vscode", ".idea", ".vs", "bin", "obj", ".sboxbuild_cache"]

def IGNORE_SUFFIXES : List String :=
  [".user", ".suo", ".cache", ".log"]

def RELEVANT_SUFFIXES : List String :=
  [".cs", ".csproj", ".props", ".targets", ".sln", ".slnx", ".json", ".razor", ".tt"]

/-! ## Change filters (is_ignored, is_relevant) -/

/-- is_ignored from the script: normalize backslashes to slashes, strip
leading dots and slashes, then the path is ignored when any ancestor
segment (all split segments except the last) is an ignored directory
name, or when its pathlib suffix is an ignored suffix. -/
def is_ignored (path : String) : Bool :=
  let p := pyLstripDotSlash (replace1 '\\' ['/'] path.toList)
  let parts := pySplit '/' p
  parts.dropLast.any (fun seg => decide (seg.asString ∈ IGNORE_DIRS)) ||
    decide (pySuffix p ∈ IGNORE_SUFFIXES)

/-- is_relevant from the script: a trailing-slash entry (a directory
placeholder) is never relevant; otherwise the pathlib suffix must be in
the relevance set. -/
def is_relevant (path : String) : Bool :=
  if path.toList.getLast? = some '/' then false
  else decide (pySuffix path.toList ∈ RELEVANT_SUFFIXES)

/-! ## Cache file naming (cache_file_for) -/

/-- The safe_name computation inside cache_file_for: the manifest path
relative to ROOT with every slash, then every backslash, replaced by a
double underscore. -/
def safe_name (rel : List Char) : List Char :=
  replace1 '\\' ['_', '_'] (replace1 '/' ['_', '_'] rel)

/-- cache_file_for from the script: the name of the per-unit cache file
inside the cache directory. -/
def cache_file_for (rel : String) : String :=
  (safe_name rel.toList).asString ++ ".sha256"

/-- Left inverse of safe_name on encodings of paths that contain no
underscore: read back a double underscore as a slash. -/
def decode_safe : List Char → List Char
  | [] => []
  | [c] => [c]
  | c :: d :: rest =>
    if c = '_' ∧ d = '_' then '/' :: decode_safe rest
    else c :: decode_safe (d :: rest)

/-- Decode a cache file name back to a manifest path: drop the
".sha256" extension (7 characters) and invert safe_name. -/
def decode_cache_file (name : String) : String :=
  (decode_safe (name.toList.take (name.toList.length - 7))).asString

lemma safe_name_nil : safe_name [] = [] := rfl

lemma safe_name_cons (c : Char) (rest : List Char) (hc : c ≠ '\\') :
    safe_name (c :: rest) =
      (if c = '/' then ['_', '_'] else [c]) ++ safe_name rest := by
  by_cases h : c = '/'
  · simp [safe_name, replace1, h]
  · simp [safe_name, replace1, h, hc]

lemma decode_safe_cons (c : Char) (l : List Char) (hc : c ≠ '_') :
    decode_safe (c :: l) = c :: decode_safe l := by
  cases l with
  | nil => simp [decode_safe]
  | cons d t => simp [decode_safe, hc]

lemma decode_safe_name (p : List Char) (hp : ∀ c ∈ p, c ≠ '_' ∧ c ≠ '\\') :
    decode_safe (safe_name p) = p := by
  induction p with
  | nil => simp [safe_name_nil, decode_safe]
  | cons c rest ih =>
    have hc := hp c (by simp)
    rw [safe_name_cons c rest hc.2]
    by_cases h : c = '/'
    · subst h
      simp only [if_pos rfl, List.cons_append, List.nil_append]
      show decode_safe ('_' :: '_' :: safe_name rest) = '/' :: rest
      rw [show decode_safe ('_' :: '_' :: safe_name rest) = '/' :: decode_safe (safe_name rest) by
        simp [decode_safe]]
      rw [ih (fun d hd => hp d (by simp [hd]))]
    · simp only [if_neg h, List.cons_append, List.nil_append]
      rw [decode_safe_cons c _ hc.1, ih (fun d hd => hp d (by simp [hd]))]

lemma safe_name_inj (p q : List Char)
    (hp : ∀ c ∈ p, c ≠ '_' ∧ c ≠ '\\') (hq : ∀ c ∈ q, c ≠ '_' ∧ c ≠ '\\')
    (h : safe_name p = safe_name q) : p = q := by
  have := congrArg decode_safe h
  rwa [decode_safe_name p hp, decode_safe_name q hq] at this

/-- C3, counterexample: the cache-file naming is not collision-free. The
two distinct manifest paths a/b.csproj and a__b.csproj receive the same
cache file name, because the slash is encoded as a double underscore,
which a path may already contain. -/
theorem cache_file_for_collision :
    cache_file_for "a/b.csproj" = cache_file_for "a__b.csproj" ∧
      ("a/b.csproj" : String) ≠ "a__b.csproj" := by
  decide

/-- C3, amended: on manifest paths that contain no underscore and no
backslash character, the cache-file naming is collision-free and the
manifest path can be decoded back from the cache file name. -/
theorem cache_file_for_injective_on_separator_free (p q : String)
    (hp : ∀ c ∈ p.toList, c ≠ '_' ∧ c ≠ '\\')
    (hq : ∀ c ∈ q.toList, c ≠ '_' ∧ c ≠ '\\') :
    (cache_file_for p = cache_file_for q → p = q) ∧
      decode_cache_file (cache_file_for p) = p := by
  have e1 : (safe_name p.toList).asString.data = safe_name p.toList :=
    List.toList_asString _
  have e2 : (safe_name q.toList).asString.data = safe_name q.toList :=
    List.toList_asString _
  constructor
  · intro h
    have h2 : (safe_name p.toList).asString ++ ".sha256" =
        (safe_name q.toList).asString ++ ".sha256" := h
    have h6 := congrArg String.data h2
    rw [String.data_append, String.data_append, e1, e2] at h6
    have h4 := List.append_cancel_right h6
    have h5 := safe_name_inj p.toList q.toList hp hq h4
    have h7 := congrArg List.asString h5
    rwa [String.asString_toList, String.asString_toList] at h7
  · unfold decode_cache_file cache_file_for
    have hlist : ((safe_name p.toList).asString ++ ".sha256").toList =
        safe_name p.toList ++ ".sha256".toList := by
      show ((safe_name p.toList).asString ++ ".sha256").data = _
      rw [String.data_append, e1]
      rfl
    rw [hlist]
    have hlen : (safe_name p.toList ++ ".sha256".toList).length - 7 =
        (safe_name p.toList).length := by
      have h7 : (".sha256".toList).length = 7 := rfl
      rw [List.length_append, h7]
      omega
    rw [hlen, List.take_left, decode_safe_name p.toList hp, String.asString_toList]

/-- Witness for the amended C3 at two concrete separator-free paths. -/
theorem cache_file_for_injective_witness :
    (cache_file_for "a/b.csproj" = cache_file_for "engine/c.csproj" →
        ("a/b.csproj" : String) = "engine/c.csproj") ∧
      decode_cache_file (cache_file_for "a/b.csproj") = "a/b.csproj" :=
  cache_file_for_injective_on_separator_free "a/b.csproj" "engine/c.csproj"
    (by decide) (by decide)

/-! ## ChangeDetector: git_changed_files

The git status stream is modelled as the raw NUL-delimited output of
the porcelain status query, one character per byte. The per-entry body
of the loop in git_changed_files is factored into process_entry; the
loop accumulates a set and the function returns it sorted, exactly as
the script builds a Python set and returns sorted(changed). -/

/-- One iteration of the entry loop in git_changed_files: skip empty
entries, entries shorter than 4 bytes, entries whose path is empty
after stripping, ignored paths and irrelevant paths; otherwise yield
the stripped path (the entry minus its 2-character status and the
separating space). -/
def process_entry (entry : List Char) : Option String :=
  if entry = [] then none
  else if entry.length < 4 then none
  else
    if (pyStrip (entry.drop 3)).asString = "" then none
    else if is_ignored ((pyStrip (entry.drop 3)).asString) then none
    else if is_relevant ((pyStrip (entry.drop 3)).asString) = false then none
    else some ((pyStrip (entry.drop 3)).asString)

/-- Accumulate an optional element into a set: the changed.add(path) and
owners.add(...) steps of the script, applied to the per-element result. -/
def insert_opt {α : Type _} [DecidableEq α] (acc : Finset α) : Option α → Finset α
  | none => acc
  | some p => insert p acc

/-- The set accumulated by the loop in git_changed_files. -/
def git_changed_set (out : List Char) : Finset String :=
  (pySplit '\x00' out).foldl (fun acc entry => insert_opt acc (process_entry entry)) ∅

/-- git_changed_files from the script: the accumulated set of surviving
paths, sorted. -/
def git_changed_files (out : List Char) : List String :=
  (git_changed_set out).sort (· ≤ ·)

lemma mem_foldl_insert {α β : Type _} [DecidableEq α] (g : β → Option α)
    (l : List β) (acc : Finset α) (x : α) :
    x ∈ l.foldl (fun acc e => insert_opt acc (g e)) acc ↔
      x ∈ acc ∨ ∃ e ∈ l, g e = some x := by
  induction l generalizing acc with
  | nil => simp
  | cons e rest ih =>
    rw [List.foldl_cons, ih]
    cases he : g e with
    | none =>
      simp only [he, insert_opt, List.mem_cons]
      constructor
      · rintro (h | h)
        · exact Or.inl h
        · exact Or.inr ⟨h.choose, Or.inr h.choose_spec.1, h.choose_spec.2⟩
      · rintro (h | ⟨f, hf | hf, hpf⟩)
        · exact Or.inl h
        · rw [hf] at hpf; rw [hpf] at he; cases he
        · exact Or.inr ⟨f, hf, hpf⟩
    | some p =>
      simp only [he, insert_opt, Finset.mem_insert, List.mem_cons]
      constructor
      · rintro ((h | h) | h)
        · exact Or.inr ⟨e, Or.inl rfl, by rw [he, h]⟩
        · exact Or.inl h
        · exact Or.inr ⟨h.choose, Or.inr h.choose_spec.1, h.choose_spec.2⟩
      · rintro (h | ⟨f, hf | hf, hpf⟩)
        · exact Or.inl (Or.inr h)
        · rw [hf] at hpf; rw [hpf] at he
          exact Or.inl (Or.inl (Option.some_inj.mp he))
        · exact Or.inr ⟨f, hf, hpf⟩

lemma mem_git_changed_set (out : List Char) (x : String) :
    x ∈ git_changed_set out ↔
      ∃ e ∈ pySplit '\x00' out, process_entry e = some x := by
  unfold git_changed_set
  rw [mem_foldl_insert process_entry]
  simp

lemma process_entry_eq_some (e : List Char) (x : String) :
    process_entry e = some x ↔
      4 ≤ e.length ∧ (pyStrip (e.drop 3)).asString = x ∧ x ≠ "" ∧
        is_ignored x = false ∧ is_relevant x = true := by
  unfold process_entry
  split
  · rename_i h
    subst h
    simp
  · split
    · rename_i h2
      simp only [reduceCtorEq, false_iff]
      intro hc
      omega
    · rename_i h1 h2
      split
      · rename_i h3
        simp only [reduceCtorEq, false_iff]
        rintro ⟨-, rfl, hne, -⟩
        exact hne h3
      · split
        · rename_i h3 h4
          simp only [reduceCtorEq, false_iff]
          rintro ⟨-, rfl, -, hig, -⟩
          rw [h4] at hig; cases hig
        · split
          · rename_i h3 h4 h5
            simp only [reduceCtorEq, false_iff]
            rintro ⟨-, rfl, -, -, hrel⟩
            rw [hrel] at h5; cases h5
          · rename_i h3 h4 h5
            simp only [Option.some_inj]
            constructor
            · rintro rfl
              refine ⟨by omega, rfl, h3, ?_, ?_⟩
              · cases hig : is_ignored (pyStrip (e.drop 3)).asString
                · rfl
                · exact absurd hig h4
              · cases hrel : is_relevant (pyStrip (e.drop 3)).asString
                · exact absurd hrel h5
                · rfl
            · rintro ⟨-, rfl, -, -, -⟩
              rfl

/-- C8: for every status stream, git_changed_files returns exactly the
sorted, deduplicated stripped paths of the well-formed entries (at
least 4 bytes long, nonempty path after stripping) that survive the
filters: no ancestor path segment of the normalized path is an ignored
directory, the suffix is not an ignored suffix, the entry is not a
directory placeholder (no trailing slash), and the suffix is in the
relevance set. Malformed entries are skipped, never an error: the
function is total and they simply contribute nothing. -/
theorem git_changed_files_spec (out : List Char) (x : String) :
    (x ∈ git_changed_files out ↔
      ∃ e ∈ pySplit '\x00' out,
        4 ≤ e.length ∧ (pyStrip (e.drop 3)).asString = x ∧ x ≠ "" ∧
          (∀ seg ∈ (pySplit '/' (pyLstripDotSlash (replace1 '\\' ['/'] x.toList))).dropLast,
              seg.asString ∉ IGNORE_DIRS) ∧
          pySuffix (pyLstripDotSlash (replace1 '\\' ['/'] x.toList)) ∉ IGNORE_SUFFIXES ∧
          x.toList.getLast? ≠ some '/' ∧
          pySuffix x.toList ∈ RELEVANT_SUFFIXES) ∧
      (git_changed_files out).Sorted (· ≤ ·) ∧
      (git_changed_files out).Nodup := by
  refine ⟨?_, Finset.sort_sorted _ _, Finset.sort_nodup _ _⟩
  unfold git_changed_files
  rw [Finset.mem_sort, mem_git_changed_set]
  constructor
  · rintro ⟨e, he, hpe⟩
    rw [process_entry_eq_some] at hpe
    obtain ⟨hlen, hpath, hne, hig, hrel⟩ := hpe
    refine ⟨e, he, hlen, hpath, hne, ?_, ?_, ?_, ?_⟩
    · intro seg hseg
      intro hmem
      have : is_ignored x = true := by
        unfold is_ignored
        simp only [Bool.or_eq_true, List.any_eq_true, decide_eq_true_eq]
        exact Or.inl ⟨seg, hseg, hmem⟩
      rw [this] at hig; cases hig
    · intro hmem
      have : is_ignored x = true := by
        unfold is_ignored
        simp only [Bool.or_eq_true, List.any_eq_true, decide_eq_true_eq]
        exact Or.inr hmem
      rw [this] at hig; cases hig
    · intro hlast
      unfold is_relevant at hrel
      rw [if_pos hlast] at hrel
      cases hrel
    · unfold is_relevant at hrel
      by_cases hl : x.toList.getLast? = some '/'
      · rw [if_pos hl] at hrel; cases hrel
      · rw [if_neg hl] at hrel
        exact of_decide_eq_true hrel
  · rintro ⟨e, he, hlen, hpath, hne, hanc, hsuf, hlast, hrelv⟩
    refine ⟨e, he, ?_⟩
    rw [process_entry_eq_some]
    refine ⟨hlen, hpath, hne, ?_, ?_⟩
    · unfold is_ignored
      simp only [Bool.or_eq_false_iff, List.any_eq_false, decide_eq_false_iff_not,
        decide_eq_true_eq]
      exact ⟨fun seg hseg => hanc seg hseg, hsuf⟩
    · unfold is_relevant
      rw [if_neg hlast]
      exact decide_eq_true hrelv

/-! ## UnitResolver: find_csproj_owners

Paths on disk are segment lists relative to ROOT: the file
engine/Foo/Foo.csproj is the list ["engine", "Foo", "Foo.csproj"], and
ROOT itself is the empty list. The filesystem is the finite set of
existing files. -/

/-- A directory entry name matches the glob pattern *.csproj exactly
when it ends in ".csproj" (fnmatch semantics, as pathlib glob uses). -/
def has_csproj_suffix (name : String) : Bool :=
  ".csproj".toList.isSuffixOf name.toList

/-- The manifest files directly inside directory d: existing files of
the form d ++ [name] with name matching *.csproj. -/
def csprojs_in (fs : Finset (List String)) (d : List String) : Finset (List String) :=
  fs.filter (fun f => f ≠ [] ∧ f.dropLast = d ∧ has_csproj_suffix (f.getLast?.getD "") = true)

/-- sorted(p.glob("*.csproj")) from the script: the manifests directly
in d, in sorted order (sorting the full paths of files of one directory
agrees with sorting their names, as Python path ordering compares the
component tuples). -/
def glob_csprojs (fs : Finset (List String)) (d : List String) : List (List String) :=
  (csprojs_in fs d).sort (· ≤ ·)

/-- The while loop of find_csproj_owners: at each directory, if the
sorted glob is nonempty take its first element, otherwise move one
level up; the loop condition p != ROOT stops the walk when it reaches
ROOT (the empty list), so ROOT itself is never examined. -/
def owner_walk (fs : Finset (List String)) : List String → Option (List String)
  | [] => none
  | x :: xs =>
    match (glob_csprojs fs (x :: xs)).head? with
    | some c => some c
    | none => owner_walk fs (x :: xs).dropLast
termination_by d => d.length
decreasing_by
  simp [List.length_dropLast]

/-- The body of the for loop of find_csproj_owners for one changed
file: a path that does not exist contributes nothing; an existing path
starts the upward walk from its containing directory. -/
def owner_of (fs : Finset (List String)) (f : List String) : Option (List String) :=
  if f ∈ fs then owner_walk fs f.dropLast else none

/-- find_csproj_owners from the script: the set of owners accumulated
over the changed files, sorted. -/
def find_csproj_owners (fs : Finset (List String)) (changed : List (List String)) :
    List (List String) :=
  (changed.foldl (fun acc f => insert_opt acc (owner_of fs f)) ∅).sort (· ≤ ·)

lemma head?_sort_eq_some_iff (s : Finset (List String)) (c : List String) :
    (s.sort (· ≤ ·)).head? = some c ↔ c ∈ s ∧ ∀ o ∈ s, c ≤ o := by
  constructor
  · intro h
    obtain ⟨t, ht⟩ : ∃ t, s.sort (· ≤ ·) = c :: t := by
      cases hs : s.sort (· ≤ ·) with
      | nil => rw [hs] at h; cases h
      | cons a t =>
        rw [hs] at h
        exact ⟨t, by rw [Option.some_inj.mp h]⟩
    have hc : c ∈ s := by
      rw [← Finset.mem_sort (α := List String) (· ≤ ·), ht]
      exact List.mem_cons_self c t
    refine ⟨hc, fun o ho => ?_⟩
    rw [← Finset.mem_sort (α := List String) (· ≤ ·), ht] at ho
    rcases List.mem_cons.mp ho with h1 | h1
    · rw [h1]
    · have hsorted := Finset.sort_sorted (α := List String) (· ≤ ·) s
      rw [ht, List.sorted_cons] at hsorted
      exact hsorted.1 o h1
  · rintro ⟨hc, hmin⟩
    cases hs : s.sort (· ≤ ·) with
    | nil =>
      rw [← Finset.mem_sort (α := List String) (· ≤ ·), hs] at hc
      cases hc
    | cons a t =>
      have ha : a ∈ s := by
        rw [← Finset.mem_sort (α := List String) (· ≤ ·), hs]
        exact List.mem_cons_self a t
      have hca : c ≤ a := hmin a ha
      have hac : a ≤ c := by
        have hcmem : c ∈ a :: t := by
          rw [← hs, Finset.mem_sort]
          exact hc
        rcases List.mem_cons.mp hcmem with h1 | h1
        · rw [h1]
        · have hsorted := Finset.sort_sorted (α := List String) (· ≤ ·) s
          rw [hs, List.sorted_cons] at hsorted
          exact hsorted.1 c h1
      rw [List.head?_cons, le_antisymm hac hca]

lemma head?_sort_eq_none_iff (s : Finset (List String)) :
    (s.sort (· ≤ ·)).head? = none ↔ s = ∅ := by
  rw [List.head?_eq_none_iff]
  constructor
  · intro h
    ext a
    simp only [Finset.not_mem_empty, iff_false]
    intro ha
    rw [← Finset.mem_sort (α := List String) (· ≤ ·), h] at ha
    cases ha
  · rintro rfl
    rw [Finset.sort_empty]

lemma prefix_dropLast_of_proper {b d : List String} (hp : b <+: d) (hne : b ≠ d) :
    b <+: d.dropLast := by
  have hlt : b.length < d.length := by
    rcases Nat.lt_or_ge b.length d.length with h | h
    · exact h
    · exact absurd (hp.eq_of_length (Nat.le_antisymm hp.length_le h)) hne
  rw [List.dropLast_eq_take, List.prefix_take_iff]
  exact ⟨hp, by omega⟩

lemma prefix_of_prefix_dropLast {b d : List String} (hp : b <+: d.dropLast) : b <+: d := by
  rw [List.dropLast_eq_take] at hp
  exact hp.trans (List.take_prefix _ _)

lemma owner_walk_cons_some (fs : Finset (List String)) (x : String) (xs : List String)
    (c : List String) (h : (glob_csprojs fs (x :: xs)).head? = some c) :
    owner_walk fs (x :: xs) = some c := by
  rw [owner_walk, h]

lemma owner_walk_cons_none (fs : Finset (List String)) (x : String) (xs : List String)
    (h : (glob_csprojs fs (x :: xs)).head? = none) :
    owner_walk fs (x :: xs) = owner_walk fs (x :: xs).dropLast := by
  rw [owner_walk, h]

/-- Full characterization of the upward walk: it yields o exactly when
some nonempty ancestor directory a of the start directory (a nonempty
prefix of d, d itself allowed, ROOT excluded) contains manifests, o is
the lexicographically first manifest in a, and every directory strictly
nearer than a (every prefix of d strictly extending a) holds none. -/
lemma owner_walk_eq_some_iff (fs : Finset (List String)) (d o : List String) :
    owner_walk fs d = some o ↔
      ∃ a, a ≠ [] ∧ a <+: d ∧
        (o ∈ csprojs_in fs a ∧ ∀ u ∈ csprojs_in fs a, o ≤ u) ∧
        (∀ b, b <+: d → a <+: b → b ≠ a → csprojs_in fs b = ∅) := by
  have H : ∀ (n : Nat) (d : List String), d.length ≤ n →
      (owner_walk fs d = some o ↔
        ∃ a, a ≠ [] ∧ a <+: d ∧
          (o ∈ csprojs_in fs a ∧ ∀ u ∈ csprojs_in fs a, o ≤ u) ∧
          (∀ b, b <+: d → a <+: b → b ≠ a → csprojs_in fs b = ∅)) := by
    intro n
    induction n with
    | zero =>
      intro d hd
      have hdnil : d = [] := List.length_eq_zero.mp (Nat.le_zero.mp hd)
      subst hdnil
      simp only [owner_walk, reduceCtorEq, false_iff, not_exists]
      rintro a ⟨ha, hpre, -, -⟩
      exact ha (List.prefix_nil.mp hpre)
    | succ n ih =>
      intro d hd
      cases d with
      | nil =>
        simp only [owner_walk, reduceCtorEq, false_iff, not_exists]
        rintro a ⟨ha, hpre, -, -⟩
        exact ha (List.prefix_nil.mp hpre)
      | cons x xs =>
        cases hh : (glob_csprojs fs (x :: xs)).head? with
        | some c =>
          rw [owner_walk_cons_some fs x xs c hh]
          rw [glob_csprojs, head?_sort_eq_some_iff] at hh
          simp only [Option.some_inj]
          constructor
          · rintro rfl
            refine ⟨x :: xs, by simp, List.prefix_rfl, hh, ?_⟩
            intro b hb1 hb2 hb3
            exact absurd (hb1.eq_of_length
              (Nat.le_antisymm hb1.length_le hb2.length_le)).symm
              (by rw [ne_comm] at hb3; exact hb3)
          · rintro ⟨a, hane, hapre, ⟨hoin, homin⟩, hempty⟩
            by_cases had : a = x :: xs
            · subst had
              exact le_antisymm (hh.2 o hoin) (homin c hh.1)
            · have := hempty (x :: xs) List.prefix_rfl hapre (fun hc => had hc.symm)
              rw [this] at hh
              cases hh.1
        | none =>
          rw [owner_walk_cons_none fs x xs hh]
          rw [glob_csprojs, head?_sort_eq_none_iff] at hh
          rw [ih (x :: xs).dropLast
            (by
              simp only [List.length_dropLast, List.length_cons] at hd ⊢
              omega)]
          constructor
          · rintro ⟨a, hane, hapre, hmin, hempty⟩
            refine ⟨a, hane, prefix_of_prefix_dropLast hapre, hmin, ?_⟩
            intro b hb1 hb2 hb3
            by_cases hbd : b = x :: xs
            · subst hbd; exact hh
            · exact hempty b (prefix_dropLast_of_proper hb1 hbd) hb2 hb3
          · rintro ⟨a, hane, hapre, hmin, hempty⟩
            have had : a ≠ x :: xs := by
              rintro rfl
              rw [hh] at hmin
              cases hmin.1
            refine ⟨a, hane, prefix_dropLast_of_proper hapre had, hmin, ?_⟩
            intro b hb1 hb2 hb3
            exact hempty b (prefix_of_prefix_dropLast hb1) hb2 hb3
  exact H d.length d le_rfl

lemma mem_find_csproj_owners (fs : Finset (List String)) (changed : List (List String))
    (o : List String) :
    o ∈ find_csproj_owners fs changed ↔
      ∃ f ∈ changed, f ∈ fs ∧ owner_of fs f = some o := by
  unfold find_csproj_owners
  rw [Finset.mem_sort, mem_foldl_insert (owner_of fs)]
  simp only [Finset.not_mem_empty, false_or]
  constructor
  · rintro ⟨f, hf, ho⟩
    refine ⟨f, hf, ?_, ho⟩
    by_contra hmem
    unfold owner_of at ho
    rw [if_neg hmem] at ho
    cases ho
  · rintro ⟨f, hf, -, ho⟩
    exact ⟨f, hf, ho⟩

/-- C5: for every filesystem and change set, find_csproj_owners is
deduplicated and sorted; a path appears in it exactly when it is the
owner of some changed file; lost (deleted) changed files contribute no
owner; and the owner of an existing changed file is precisely the
lexicographically first manifest of the nearest manifest-bearing
ancestor directory of the file, ROOT excluded, with every nearer
directory empty of manifests. The function is total: ownerless or
deleted files cause no error, they are skipped. -/
theorem find_csproj_owners_spec (fs : Finset (List String)) (changed : List (List String)) :
    (find_csproj_owners fs changed).Nodup ∧
      (find_csproj_owners fs changed).Sorted (· ≤ ·) ∧
      (∀ o, o ∈ find_csproj_owners fs changed ↔
        ∃ f ∈ changed, f ∈ fs ∧ owner_of fs f = some o) ∧
      (∀ f, f ∉ fs → owner_of fs f = none) ∧
      (∀ f o, owner_of fs f = some o ↔
        f ∈ fs ∧ ∃ a, a ≠ [] ∧ a <+: f.dropLast ∧
          (o ∈ csprojs_in fs a ∧ ∀ u ∈ csprojs_in fs a, o ≤ u) ∧
          (∀ b, b <+: f.dropLast → a <+: b → b ≠ a → csprojs_in fs b = ∅)) := by
  refine ⟨Finset.sort_nodup _ _, Finset.sort_sorted _ _,
    mem_find_csproj_owners fs changed, ?_, ?_⟩
  · intro f hf
    unfold owner_of
    rw [if_neg hf]
  · intro f o
    unfold owner_of
    by_cases hf : f ∈ fs
    · rw [if_pos hf, owner_walk_eq_some_iff]
      simp [hf]
    · rw [if_neg hf]
      simp [hf]

/-- C10: the upward walk never examines ROOT itself: any owner it
returns lies strictly below ROOT (it is an existing manifest with at
least two path segments), and when every manifest of the workspace
lies directly in ROOT (one-segment paths), no changed file resolves to
any owner at all. -/
theorem owner_walk_skips_root (fs : Finset (List String)) :
    (∀ d o, owner_walk fs d = some o → o ∈ fs ∧ 2 ≤ o.length) ∧
      (∀ changed,
        (∀ f ∈ fs, has_csproj_suffix (f.getLast?.getD "") = true → f.length = 1) →
        find_csproj_owners fs changed = []) := by
  have hbase : ∀ d o, owner_walk fs d = some o → o ∈ fs ∧ 2 ≤ o.length := by
    intro d o h
    rw [owner_walk_eq_some_iff] at h
    obtain ⟨a, hane, -, ⟨hoin, -⟩, -⟩ := h
    unfold csprojs_in at hoin
    rw [Finset.mem_filter] at hoin
    obtain ⟨hofs, hone, hodrop, -⟩ := hoin
    refine ⟨hofs, ?_⟩
    have : o.dropLast ≠ [] := by rw [hodrop]; exact hane
    have h1 : 1 ≤ o.dropLast.length := List.length_pos.mpr this
    have h2 : o.dropLast.length = o.length - 1 := List.length_dropLast o
    have h3 : 1 ≤ o.length := List.length_pos.mpr hone
    omega
  refine ⟨hbase, ?_⟩
  intro changed hroot
  unfold find_csproj_owners
  have hempty : (changed.foldl (fun acc f => insert_opt acc (owner_of fs f)) ∅ :
      Finset (List String)) = ∅ := by
    ext o
    simp only [Finset.not_mem_empty, iff_false]
    rw [mem_foldl_insert (owner_of fs)]
    rintro (h | ⟨f, -, ho⟩)
    · exact absurd h (Finset.not_mem_empty o)
    · unfold owner_of at ho
      by_cases hf : f ∈ fs
      · rw [if_pos hf] at ho
        obtain ⟨hofs, holen⟩ := hbase f.dropLast o ho
        rw [owner_walk_eq_some_iff] at ho
        obtain ⟨a, hane, -, ⟨hoin, -⟩, -⟩ := ho
        unfold csprojs_in at hoin
        rw [Finset.mem_filter] at hoin
        have := hroot o hofs hoin.2.2.2
        omega
      · rw [if_neg hf] at ho
        cases ho
  rw [hempty, Finset.sort_empty]


/-! ## Fingerprint and cache (compute_project_hash, should_build_hash_cache)

The fingerprint digest is modelled as hex_of_stream of the exact byte
stream the script feeds to sha256: SHA-256 itself is an uninterpreted
deterministic function of that stream, so every equal-input claim about
the digest holds of the model exactly when it holds of the script. The
filesystem enumeration (os.walk of the project directory and the walk
that collects Directory.Build.props/targets) is an input of the model,
since the script consumes it in whatever order the OS yields it; the
claims quantify over those enumerations. -/

/-- The bytes of a path string fed to the digest (UTF-8 modelled by
code points). -/
def str_bytes (s : String) : List Nat :=
  s.toList.map Char.toNat

/-- str(p.relative_to(ROOT)) for a segment-list path: the segments
joined with slashes. -/
def rel_str (p : List String) : String :=
  String.intercalate "/" p

/-- A per-file record of the digest input: the normalized relative path
(backslashes replaced by slashes), a NUL separator byte, then the full
content bytes of the file. -/
def file_record (content : List String → List Nat) (p : List String) : List Nat :=
  ((replace1 '\\' ['/'] (rel_str p).toList).map Char.toNat) ++ 0 :: content p

/-- sorted(set(inputs)) from compute_project_hash: the distinct input
paths in sorted order. -/
def sort_dedup (inputs : List (List String)) : List (List String) :=
  inputs.toFinset.sort (· ≤ ·)

/-- The byte stream compute_project_hash feeds to sha256: the records
of the sorted, deduplicated inputs, concatenated. -/
def hash_stream (content : List String → List Nat) (inputs : List (List String)) : List Nat :=
  (sort_dedup inputs).flatMap (file_record content)

/-- One hex digit. -/
def hex_digit (n : Nat) : Char :=
  ("0123456789abcdef".toList.getD n '0')

/-- A byte as two lowercase hex characters. -/
def hex_byte (n : Nat) : List Char :=
  [hex_digit (n % 256 / 16), hex_digit (n % 16)]

/-- Model of sha256(stream).hexdigest(): an injective deterministic
digest of the stream, rendered in lowercase hex. -/
def hex_of_stream (l : List Nat) : String :=
  (l.flatMap hex_byte).asString

/-- The filesystem enumerations compute_project_hash consumes, keyed by
the project directory: the file contents, the Directory.Build files
collected walking up from the project directory, and the recursive
os.walk enumeration of relevant project files. -/
structure HashWorld where
  content : List String → List Nat
  dir_build : List String → List (List String)
  walk_inputs : List String → List (List String)

/-- compute_project_hash from the script: digest the manifest itself,
the collected Directory.Build files and the walked project inputs,
after dedup and sort. -/
def compute_project_hash (w : HashWorld) (csproj : List String) : String :=
  hex_of_stream (hash_stream w.content
    (csproj :: (w.dir_build csproj.dropLast ++ w.walk_inputs csproj.dropLast)))

/-- Write one cache file: the store maps cache-file names to their text
content. -/
def store_write (store : String → Option String) (k v : String) : String → Option String :=
  fun q => if q = k then some v else store q

/-- should_build_hash_cache from the script: compute the fresh
fingerprint; if the cache file exists and its stripped text equals the
fresh fingerprint, report no build needed without writing; otherwise
write the fresh fingerprint (with a trailing newline) and report build
needed. -/
def should_build_hash_cache (w : HashWorld) (store : String → Option String)
    (csproj : List String) : Bool × (String → Option String) :=
  match store (cache_file_for (rel_str csproj)) with
  | some txt =>
    if (pyStrip txt.toList).asString = compute_project_hash w csproj then (false, store)
    else (true, store_write store (cache_file_for (rel_str csproj))
      (compute_project_hash w csproj ++ "\n"))
  | none => (true, store_write store (cache_file_for (rel_str csproj))
      (compute_project_hash w csproj ++ "\n"))

/-- force_update_hash from the script: write the fresh fingerprint
unconditionally. -/
def force_update_hash (w : HashWorld) (store : String → Option String)
    (csproj : List String) : String → Option String :=
  store_write store (cache_file_for (rel_str csproj)) (compute_project_hash w csproj ++ "\n")

lemma dropWhile_eq_self_of_head {l : List Char}
    (h : ∀ c ∈ l, isPySpace c = false) : l.dropWhile isPySpace = l := by
  cases l with
  | nil => rfl
  | cons c t =>
    rw [List.dropWhile_cons, h c (by simp)]
    simp

lemma pyStrip_no_space_append_newline {l : List Char}
    (h : ∀ c ∈ l, isPySpace c = false) : pyStrip (l ++ ['\n']) = l := by
  cases l with
  | nil => decide
  | cons a t =>
    have ha : isPySpace a = false := h a (by simp)
    unfold pyStrip
    rw [List.cons_append, List.dropWhile_cons, ha]
    simp only [Bool.false_eq_true, if_false]
    rw [List.reverse_cons]
    rw [show (t ++ ['\n']).reverse = '\n' :: t.reverse by simp]
    rw [List.cons_append, List.dropWhile_cons]
    rw [show isPySpace '\n' = true from rfl]
    simp only [if_true]
    rw [dropWhile_eq_self_of_head ?allns]
    case allns =>
      intro c hc
      rcases List.mem_append.mp hc with h1 | h1
      · exact h c (List.mem_cons_of_mem a (List.mem_reverse.mp h1))
      · simp only [List.mem_singleton] at h1
        subst h1
        exact ha
    simp

lemma hex_digit_not_space (n : Nat) : isPySpace (hex_digit n) = false := by
  unfold hex_digit
  by_cases h : n < ("0123456789abcdef".toList).length
  · rw [List.getD_eq_getElem _ _ h]
    have hmem := List.getElem_mem h
    revert hmem
    generalize "0123456789abcdef".toList[n] = c
    intro hmem
    have : ∀ c ∈ "0123456789abcdef".toList, isPySpace c = false := by decide
    exact this c hmem
  · rw [List.getD_eq_default _ _ (Nat.le_of_not_lt h)]
    decide

lemma hex_of_stream_no_space (l : List Nat) :
    ∀ c ∈ (hex_of_stream l).toList, isPySpace c = false := by
  intro c hc
  unfold hex_of_stream at hc
  rw [List.toList_asString] at hc
  obtain ⟨b, -, hb⟩ := List.mem_flatMap.mp hc
  unfold hex_byte at hb
  simp only [List.mem_cons, List.not_mem_nil, or_false] at hb
  rcases hb with h1 | h1
  · rw [h1]; exact hex_digit_not_space _
  · rw [h1]; exact hex_digit_not_space _

lemma strip_record (w : HashWorld) (u : List String) :
    (pyStrip ((compute_project_hash w u ++ "\n").toList)).asString =
      compute_project_hash w u := by
  have h1 : (compute_project_hash w u ++ "\n").toList =
      (compute_project_hash w u).toList ++ ['\n'] := by
    show (compute_project_hash w u ++ "\n").data = _
    rw [String.data_append]
    rfl
  rw [h1]
  have h2 : ∀ c ∈ (compute_project_hash w u).toList, isPySpace c = false := by
    unfold compute_project_hash
    exact hex_of_stream_no_space _
  rw [pyStrip_no_space_append_newline h2, String.asString_toList]

lemma should_build_eq_none (w : HashWorld) (store : String → Option String)
    (csproj : List String) (h : store (cache_file_for (rel_str csproj)) = none) :
    should_build_hash_cache w store csproj =
      (true, store_write store (cache_file_for (rel_str csproj))
        (compute_project_hash w csproj ++ "\n")) := by
  unfold should_build_hash_cache
  rw [h]

lemma should_build_eq_some (w : HashWorld) (store : String → Option String)
    (csproj : List String) (txt : String)
    (h : store (cache_file_for (rel_str csproj)) = some txt) :
    should_build_hash_cache w store csproj =
      if (pyStrip txt.toList).asString = compute_project_hash w csproj then (false, store)
      else (true, store_write store (cache_file_for (rel_str csproj))
        (compute_project_hash w csproj ++ "\n")) := by
  unfold should_build_hash_cache
  rw [h]

/-- C1: should_build_hash_cache reports no build needed, leaving the
store untouched, exactly when a stored record exists whose stripped
text equals the freshly computed fingerprint; in every other case (no
record, or a differing record) it writes the fresh fingerprint as the
new record and reports build needed. The comparison happens before any
write: on the no-build path the returned store is the input store
itself. -/
theorem should_build_hash_cache_spec (w : HashWorld) (store : String → Option String)
    (csproj : List String) :
    ((should_build_hash_cache w store csproj).1 = false ↔
      ∃ txt, store (cache_file_for (rel_str csproj)) = some txt ∧
        (pyStrip txt.toList).asString = compute_project_hash w csproj) ∧
      ((should_build_hash_cache w store csproj).1 = false →
        (should_build_hash_cache w store csproj).2 = store) ∧
      ((should_build_hash_cache w store csproj).1 = true →
        (should_build_hash_cache w store csproj).2 =
          store_write store (cache_file_for (rel_str csproj))
            (compute_project_hash w csproj ++ "\n")) := by
  cases hs : store (cache_file_for (rel_str csproj)) with
  | none =>
    rw [should_build_eq_none w store csproj hs]
    refine ⟨?_, ?_, ?_⟩
    · simp only [reduceCtorEq, false_iff, not_exists]
      rintro txt ⟨htxt, -⟩
      exact htxt
    · intro h; cases h
    · intro h; rfl
  | some txt =>
    rw [should_build_eq_some w store csproj txt hs]
    by_cases hc : (pyStrip txt.toList).asString = compute_project_hash w csproj
    · rw [if_pos hc]
      refine ⟨?_, ?_, ?_⟩
      · simp only [true_iff]
        exact ⟨txt, rfl, hc⟩
      · intro h; rfl
      · intro h; cases h
    · rw [if_neg hc]
      refine ⟨?_, ?_, ?_⟩
      · simp only [reduceCtorEq, false_iff, not_exists]
        rintro txt2 ⟨htxt2, heq⟩
        rw [← Option.some_inj.mp htxt2] at heq
        exact hc heq
      · intro h; cases h
      · intro h; rfl

/-- C9: when should_build_hash_cache reports no build needed, it wrote
nothing, so calling it again on the resulting store (the filesystem
unchanged) reports no build needed again: the read itself never
invalidates the cache. -/
theorem should_build_hash_cache_idempotent (w : HashWorld)
    (store : String → Option String) (csproj : List String)
    (h : (should_build_hash_cache w store csproj).1 = false) :
    should_build_hash_cache w ((should_build_hash_cache w store csproj).2) csproj =
      (false, (should_build_hash_cache w store csproj).2) := by
  cases hs : store (cache_file_for (rel_str csproj)) with
  | none =>
    rw [should_build_eq_none w store csproj hs] at h
    cases h
  | some txt =>
    rw [should_build_eq_some w store csproj txt hs] at h
    by_cases hc : (pyStrip txt.toList).asString = compute_project_hash w csproj
    · rw [should_build_eq_some w store csproj txt hs, if_pos hc]
      show should_build_hash_cache w store csproj = (false, store)
      rw [should_build_eq_some w store csproj txt hs, if_pos hc]
    · rw [if_neg hc] at h
      cases h

/-- Concrete worlds for the C9 and C7 witnesses, differing only in the
order the recursive walk enumerates the project files. -/
def hash_world_a : HashWorld :=
  ⟨fun _ => [], fun _ => [], fun _ => [["proj", "X.csproj"], ["proj", "y.cs"]]⟩

def hash_world_b : HashWorld :=
  ⟨fun _ => [], fun _ => [], fun _ => [["proj", "y.cs"], ["proj", "X.csproj"]]⟩

/-- A store holding exactly the current fingerprint record of the unit
proj/X.csproj. -/
def store_ready : String → Option String :=
  force_update_hash hash_world_a (fun _ => none) ["proj", "X.csproj"]

lemma store_ready_read :
    store_ready (cache_file_for (rel_str ["proj", "X.csproj"])) =
      some (compute_project_hash hash_world_a ["proj", "X.csproj"] ++ "\n") := by
  unfold store_ready force_update_hash store_write
  rw [if_pos rfl]

lemma should_build_store_ready :
    (should_build_hash_cache hash_world_a store_ready ["proj", "X.csproj"]).1 = false := by
  rw [should_build_eq_some hash_world_a store_ready ["proj", "X.csproj"]
    (compute_project_hash hash_world_a ["proj", "X.csproj"] ++ "\n") store_ready_read]
  rw [if_pos (strip_record hash_world_a ["proj", "X.csproj"])]

/-- Witness for C9 at a concrete world and store. -/
theorem should_build_hash_cache_idempotent_witness :
    should_build_hash_cache hash_world_a
        ((should_build_hash_cache hash_world_a store_ready ["proj", "X.csproj"]).2)
        ["proj", "X.csproj"] =
      (false, (should_build_hash_cache hash_world_a store_ready ["proj", "X.csproj"]).2) :=
  should_build_hash_cache_idempotent hash_world_a store_ready ["proj", "X.csproj"]
    should_build_store_ready

/-- C7: the fingerprint digest depends only on the set of enumerated
inputs and their contents, not on the order the filesystem yields them
(the digest input is the sorted, deduplicated input set, each file
contributing its path, a separator byte and its content); and the
record round-trips: immediately after the fingerprint is written for a
unit, re-running the gate recomputes the same fingerprint and reports
no build needed. -/
theorem compute_project_hash_order_independent (w w2 : HashWorld)
    (store : String → Option String) (csproj : List String)
    (hco : ∀ p, w.content p = w2.content p)
    (hdb : (w.dir_build csproj.dropLast).Perm (w2.dir_build csproj.dropLast))
    (hwi : (w.walk_inputs csproj.dropLast).Perm (w2.walk_inputs csproj.dropLast)) :
    compute_project_hash w csproj = compute_project_hash w2 csproj ∧
      (should_build_hash_cache w (force_update_hash w store csproj) csproj).1 = false := by
  constructor
  · have hct : w.content = w2.content := funext hco
    have hperm : (csproj :: (w.dir_build csproj.dropLast ++ w.walk_inputs csproj.dropLast)).Perm
        (csproj :: (w2.dir_build csproj.dropLast ++ w2.walk_inputs csproj.dropLast)) :=
      (hdb.append hwi).cons csproj
    unfold compute_project_hash hash_stream sort_dedup
    rw [hct, List.toFinset_eq_of_perm _ _ hperm]
  · have hread : (force_update_hash w store csproj) (cache_file_for (rel_str csproj)) =
        some (compute_project_hash w csproj ++ "\n") := by
      unfold force_update_hash store_write
      rw [if_pos rfl]
    rw [should_build_eq_some w _ csproj _ hread]
    rw [if_pos (strip_record w csproj)]

/-- Witness for C7: two concrete worlds whose walk enumerations are the
same two files in swapped order. -/
theorem compute_project_hash_order_independent_witness :
    compute_project_hash hash_world_a ["proj", "X.csproj"] =
        compute_project_hash hash_world_b ["proj", "X.csproj"] ∧
      (should_build_hash_cache hash_world_a
        (force_update_hash hash_world_a (fun _ => none) ["proj", "X.csproj"])
        ["proj", "X.csproj"]).1 = false :=
  compute_project_hash_order_independent hash_world_a hash_world_b (fun _ => none)
    ["proj", "X.csproj"] (fun _ => rfl) (List.Perm.refl _)
    (List.Perm.swap ["proj", "y.cs"] ["proj", "X.csproj"] [])


/-! ## EnvironmentState, BuildScheduler and PostActions (main)

main is modelled as a trace-producing function: every external action
the script takes (consulting git status, resolving owners, querying the
fingerprint gate, invoking a build, the cleanup passes) appends an
event. The outcomes of external invocations (format, full build, per
unit builds, tests) are inputs: an Except value whose error constructor
stands for a raised exception (a nonzero exit of a checked subprocess
call) and whose ok value is the returned code. The try/finally of main
is modelled by appending the PostActions events to whatever trace the
try body produced, for every flow out of it (fall-through, early
return, exception). -/

inductive Ev where
  | git_status
  | resolve_owners
  | fingerprint_check (u : List String)
  | build_unit (u : List String)
  | full_build_run
  | tests_run
  | format_run
  | init_cache
  | restore_patch
  | fix_case
  | fix_ownership
deriving DecidableEq

/-- How the code after a stage continues: fall through to the next
statement, return from main with a code, or propagate an exception. -/
inductive Flow where
  | next
  | ret (rc : Int)
  | exc
deriving DecidableEq

/-- The sentinel artifacts of looks_like_fresh_clone. -/
def sentinel_paths : List String :=
  ["game/sbox.exe", "game/sbox.dll", "game/bin/managed/Sandbox.Engine.dll",
   "game/.source2", "engine/Tools/CodeGen/bin/CodeGen.dll"]

/-- looks_like_fresh_clone from the script, at its default threshold
min_hits = 4 (the only way the script calls it): count the sentinels
that exist and report a fresh clone when fewer than 4 do. -/
def looks_like_fresh_clone (ex : String → Bool) : Bool :=
  decide (sentinel_paths.countP ex < 4)

/-- The parsed command line of main. -/
structure Args where
  full : Bool
  no_auto_full : Bool
  enable_hash_cache : Bool
  enable_codegen_patch : Bool
  test : Bool
  format : Bool
  no_prompt : Bool

/-- Everything main observes from its environment: the NO_PROMPT
variable, which sentinel files exist, whether the cache directory and
the codegen-patch flag file exist at start, whether the patch source
and target files exist (so apply_codegen_patch succeeds), the wizard
answers, the git status output, the workspace files, the rglob result
for *.csproj, the fingerprint inputs, the cache directory contents and
the outcomes of the external invocations. -/
structure Env where
  env_no_prompt : Bool
  sentinel_ex : String → Bool
  cache_dir0 : Bool
  patch_flag0 : Bool
  patch_ok : Bool
  ans_hash_cache : Bool
  ans_patch : Bool
  git_out : List Char
  fs : Finset (List String)
  csprojs : Finset (List String)
  hw : HashWorld
  store0 : String → Option String
  format_res : Except Unit Int
  full_build_res : Except Unit Int
  build_res : List String → Except Unit Unit
  test_res : Except Unit Int

/-- rc = f(); return rc — an external invocation whose result is
returned, or whose exception propagates. -/
def ext_flow : Except Unit Int → Flow
  | .error _ => .exc
  | .ok rc => .ret rc

/-- ROOT / f for a changed-path string: its slash-separated segments. -/
def path_segs (s : String) : List String :=
  (pySplit '/' s.toList).map List.asString

/-- init_hash_cache from the script: force-write the fingerprint record
of every project. -/
def init_store (w : HashWorld) (store : String → Option String)
    (projects : List (List String)) : String → Option String :=
  projects.foldl (force_update_hash w) store

/-- The build loop of main (for p in projects): when the hash cache is
enabled each unit is first gated by should_build_hash_cache (an event
and a possible cache write), and built only when the gate says so; with
the cache disabled each unit is built unconditionally. A build whose
subprocess fails raises, ending the loop and propagating. -/
def gate_loop (w : HashWorld) (hash_on : Bool) (bres : List String → Except Unit Unit) :
    (String → Option String) → List (List String) →
      List Ev × (String → Option String) × Flow
  | store, [] => ([], store, .next)
  | store, p :: rest =>
    if hash_on then
      match should_build_hash_cache w store p with
      | (false, store1) =>
        let r := gate_loop w hash_on bres store1 rest
        (.fingerprint_check p :: r.1, r.2)
      | (true, store1) =>
        match bres p with
        | .error _ => ([.fingerprint_check p, .build_unit p], store1, .exc)
        | .ok _ =>
          let r := gate_loop w hash_on bres store1 rest
          (.fingerprint_check p :: .build_unit p :: r.1, r.2)
    else
      match bres p with
      | .error _ => ([.build_unit p], store, .exc)
      | .ok _ =>
        let r := gate_loop w hash_on bres store rest
        (.build_unit p :: r.1, r.2)

/-- The scheduling stage of main (the forced-full-build check, the
auto-full-build check, candidate selection and the build loop). -/
def schedule_stage (a : Args) (e : Env) (hash_on : Bool)
    (store : String → Option String) : List Ev × (String → Option String) × Flow :=
  if a.full then
    ([.full_build_run], store, ext_flow e.full_build_res)
  else if !a.no_auto_full && looks_like_fresh_clone e.sentinel_ex then
    ([.full_build_run], store, ext_flow e.full_build_res)
  else if hash_on then
    let projects := e.csprojs.sort (· ≤ ·)
    if projects = [] then ([], store, .next)
    else gate_loop e.hw true e.build_res store projects
  else
    let changed := git_changed_files e.git_out
    if changed = [] then ([.git_status], store, .next)
    else
      let projects := find_csproj_owners e.fs (changed.map path_segs)
      if projects = [] then ([.git_status, .resolve_owners], store, .next)
      else
        let r := gate_loop e.hw false e.build_res store projects
        (.git_status :: .resolve_owners :: r.1, r.2)

/-- The statements of main after the build loop: the optional test run
(an early return when it reports 1, an exception when it raises), then
return 0. -/
def after_schedule (a : Args) (e : Env) (r : List Ev × (String → Option String) × Flow) :
    List Ev × Flow :=
  match r.2.2 with
  | .exc => (r.1, .exc)
  | .ret rc => (r.1, .ret rc)
  | .next =>
    if a.test then
      match e.test_res with
      | .error _ => (r.1 ++ [.tests_run], .exc)
      | .ok rc =>
        if rc = 1 then (r.1 ++ [.tests_run], .ret rc)
        else (r.1 ++ [.tests_run], .ret 0)
    else (r.1, .ret 0)

/-- The first-build wizard can create the cache directory: it exists
after the wizard when it existed before, or when a fresh clone was
detected, prompting was allowed and the user accepted. -/
def wizard_cache (a : Args) (e : Env) : Bool :=
  e.cache_dir0 ||
    (looks_like_fresh_clone e.sentinel_ex && !(a.no_prompt || e.env_no_prompt) &&
      e.ans_hash_cache)

/-- hash_cache_enabled in main: the cache directory exists (possibly
created by the wizard) or the flag was passed. -/
def hash_cache_enabled (a : Args) (e : Env) : Bool :=
  wizard_cache a e || a.enable_hash_cache

/-- apply_codegen_patch succeeds when the flag file exists (possibly
just created by --enable-codegen-patch) and the patch source and the
target both exist. -/
def codegen_patch_applied (a : Args) (e : Env) : Bool :=
  (e.patch_flag0 || a.enable_codegen_patch) && e.patch_ok

/-- The flag --enable-hash-cache initializes the cache exactly when the cache
directory did not already exist (and the wizard did not just create
it). -/
def do_init (a : Args) (e : Env) : Bool :=
  a.enable_hash_cache && !wizard_cache a e

/-- The cache store after the setup phase: when initialization runs,
every workspace unit has its fingerprint force-written. -/
def store_after_setup (a : Args) (e : Env) : String → Option String :=
  if do_init a e then init_store e.hw e.store0 (e.csprojs.sort (· ≤ ·)) else e.store0

/-- The events of the setup phase. -/
def pre_events (a : Args) (e : Env) : List Ev :=
  if do_init a e then [Ev.init_cache] else []

/-- The try block of main: wizard and cache setup (with the one-time
cache initialization when --enable-hash-cache finds no cache
directory), patch application, the optional format stage with its
early return, the scheduling stage and the statements after it. -/
def try_body (a : Args) (e : Env) : List Ev × Flow :=
  if a.format then
    match e.format_res with
    | .error _ => (pre_events a e ++ [Ev.format_run], .exc)
    | .ok rc =>
      if rc = 1 then (pre_events a e ++ [Ev.format_run], .ret rc)
      else
        ((pre_events a e ++ [Ev.format_run]) ++
            (after_schedule a e
              (schedule_stage a e (hash_cache_enabled a e) (store_after_setup a e))).1,
          (after_schedule a e
            (schedule_stage a e (hash_cache_enabled a e) (store_after_setup a e))).2)
  else
    (pre_events a e ++
        (after_schedule a e
          (schedule_stage a e (hash_cache_enabled a e) (store_after_setup a e))).1,
      (after_schedule a e
        (schedule_stage a e (hash_cache_enabled a e) (store_after_setup a e))).2)

/-- The finally block of main: restore the codegen patch when it was
applied, then the directory-casing repair and the ownership repair. -/
def post_actions (patched : Bool) : List Ev :=
  (if patched then [Ev.restore_patch] else []) ++ [Ev.fix_case, Ev.fix_ownership]

/-- main from the script: the try body, then — on every flow out of it,
fall-through, early return or exception — the finally block. -/
def main_model (a : Args) (e : Env) : List Ev × Flow :=
  ((try_body a e).1 ++ post_actions (codegen_patch_applied a e), (try_body a e).2)

/-- The cleanup events of PostActions. -/
def is_cleanup : Ev → Bool
  | .restore_patch => true
  | .fix_case => true
  | .fix_ownership => true
  | _ => false

/-- The units of the fingerprint-gate events of a trace, in order. -/
def checks_of (l : List Ev) : List (List String) :=
  l.filterMap (fun ev =>
    match ev with
    | .fingerprint_check u => some u
    | _ => none)

/-- The units of the build events of a trace, in order. -/
def builds_of (l : List Ev) : List (List String) :=
  l.filterMap (fun ev =>
    match ev with
    | .build_unit u => some u
    | _ => none)

/-- The list of units the threaded fingerprint gate admits: each unit
is gated against the store as updated by all earlier gate queries. -/
def gate_result (w : HashWorld) :
    (String → Option String) → List (List String) → List (List String)
  | _, [] => []
  | store, p :: rest =>
    match should_build_hash_cache w store p with
    | (true, store1) => p :: gate_result w store1 rest
    | (false, store1) => gate_result w store1 rest


lemma gate_loop_nil (w : HashWorld) (g : Bool) (b : List String → Except Unit Unit)
    (st : String → Option String) : gate_loop w g b st [] = ([], st, Flow.next) := rfl

lemma gate_loop_cons_skip (w : HashWorld) (b : List String → Except Unit Unit)
    (st st1 : String → Option String) (p : List String) (rest : List (List String))
    (h : should_build_hash_cache w st p = (false, st1)) :
    gate_loop w true b st (p :: rest) =
      (Ev.fingerprint_check p :: (gate_loop w true b st1 rest).1,
        (gate_loop w true b st1 rest).2) := by
  rw [gate_loop, if_pos rfl, h]

lemma gate_loop_cons_build_ok (w : HashWorld) (b : List String → Except Unit Unit)
    (st st1 : String → Option String) (p : List String) (rest : List (List String))
    (hsb : should_build_hash_cache w st p = (true, st1)) (hok : b p = Except.ok ()) :
    gate_loop w true b st (p :: rest) =
      (Ev.fingerprint_check p :: Ev.build_unit p :: (gate_loop w true b st1 rest).1,
        (gate_loop w true b st1 rest).2) := by
  rw [gate_loop, if_pos rfl, hsb, hok]

lemma gate_loop_cons_build_err (w : HashWorld) (b : List String → Except Unit Unit)
    (st st1 : String → Option String) (p : List String) (rest : List (List String))
    (er : Unit) (hsb : should_build_hash_cache w st p = (true, st1))
    (her : b p = Except.error er) :
    gate_loop w true b st (p :: rest) =
      ([Ev.fingerprint_check p, Ev.build_unit p], st1, Flow.exc) := by
  rw [gate_loop, if_pos rfl, hsb, her]

lemma gate_loop_cons_nogate_ok (w : HashWorld) (b : List String → Except Unit Unit)
    (st : String → Option String) (p : List String) (rest : List (List String))
    (hok : b p = Except.ok ()) :
    gate_loop w false b st (p :: rest) =
      (Ev.build_unit p :: (gate_loop w false b st rest).1,
        (gate_loop w false b st rest).2) := by
  rw [gate_loop, if_neg (by simp), hok]

lemma gate_loop_cons_nogate_err (w : HashWorld) (b : List String → Except Unit Unit)
    (st : String → Option String) (p : List String) (rest : List (List String))
    (er : Unit) (her : b p = Except.error er) :
    gate_loop w false b st (p :: rest) = ([Ev.build_unit p], st, Flow.exc) := by
  rw [gate_loop, if_neg (by simp), her]

lemma gate_result_nil (w : HashWorld) (st : String → Option String) :
    gate_result w st [] = [] := rfl

lemma gate_result_cons_true (w : HashWorld) (st st1 : String → Option String)
    (p : List String) (rest : List (List String))
    (h : should_build_hash_cache w st p = (true, st1)) :
    gate_result w st (p :: rest) = p :: gate_result w st1 rest := by
  rw [gate_result, h]

lemma gate_result_cons_false (w : HashWorld) (st st1 : String → Option String)
    (p : List String) (rest : List (List String))
    (h : should_build_hash_cache w st p = (false, st1)) :
    gate_result w st (p :: rest) = gate_result w st1 rest := by
  rw [gate_result, h]

lemma checks_of_cons_check (p : List String) (l : List Ev) :
    checks_of (Ev.fingerprint_check p :: l) = p :: checks_of l := rfl

lemma checks_of_cons_build (p : List String) (l : List Ev) :
    checks_of (Ev.build_unit p :: l) = checks_of l := rfl

lemma builds_of_cons_build (p : List String) (l : List Ev) :
    builds_of (Ev.build_unit p :: l) = p :: builds_of l := rfl

lemma builds_of_cons_check (p : List String) (l : List Ev) :
    builds_of (Ev.fingerprint_check p :: l) = builds_of l := rfl

lemma gate_loop_mem_shape (w : HashWorld) (g : Bool) (b : List String → Except Unit Unit) :
    ∀ (l : List (List String)) (st : String → Option String) (ev : Ev),
      ev ∈ (gate_loop w g b st l).1 →
      (∃ u, ev = Ev.fingerprint_check u) ∨ (∃ u, ev = Ev.build_unit u) := by
  intro l
  induction l with
  | nil =>
    intro st ev h
    rw [gate_loop_nil] at h
    cases h
  | cons p rest ih =>
    intro st ev h
    cases g with
    | true =>
      rcases hsb : should_build_hash_cache w st p with ⟨bb, st1⟩
      cases bb with
      | false =>
        rw [gate_loop_cons_skip w b st st1 p rest hsb] at h
        rcases List.mem_cons.mp h with h1 | h1
        · exact Or.inl ⟨p, h1⟩
        · exact ih st1 ev h1
      | true =>
        cases hbr : b p with
        | error er =>
          rw [gate_loop_cons_build_err w b st st1 p rest er hsb hbr] at h
          rcases List.mem_cons.mp h with h1 | h1
          · exact Or.inl ⟨p, h1⟩
          · rcases List.mem_cons.mp h1 with h2 | h2
            · exact Or.inr ⟨p, h2⟩
            · cases h2
        | ok u =>
          rw [gate_loop_cons_build_ok w b st st1 p rest hsb hbr] at h
          rcases List.mem_cons.mp h with h1 | h1
          · exact Or.inl ⟨p, h1⟩
          · rcases List.mem_cons.mp h1 with h2 | h2
            · exact Or.inr ⟨p, h2⟩
            · exact ih st1 ev h2
    | false =>
      cases hbr : b p with
      | error er =>
        rw [gate_loop_cons_nogate_err w b st p rest er hbr] at h
        rcases List.mem_cons.mp h with h1 | h1
        · exact Or.inr ⟨p, h1⟩
        · cases h1
      | ok u =>
        rw [gate_loop_cons_nogate_ok w b st p rest hbr] at h
        rcases List.mem_cons.mp h with h1 | h1
        · exact Or.inr ⟨p, h1⟩
        · exact ih st ev h1

lemma gate_loop_hash_spec (w : HashWorld) (b : List String → Except Unit Unit)
    (hb : ∀ p, b p = Except.ok ()) :
    ∀ (l : List (List String)) (st : String → Option String),
      checks_of (gate_loop w true b st l).1 = l ∧
        builds_of (gate_loop w true b st l).1 = gate_result w st l := by
  intro l
  induction l with
  | nil =>
    intro st
    rw [gate_loop_nil, gate_result_nil]
    exact ⟨rfl, rfl⟩
  | cons p rest ih =>
    intro st
    rcases hsb : should_build_hash_cache w st p with ⟨bb, st1⟩
    cases bb with
    | false =>
      rw [gate_loop_cons_skip w b st st1 p rest hsb,
        gate_result_cons_false w st st1 p rest hsb,
        checks_of_cons_check, builds_of_cons_check]
      exact ⟨congrArg (p :: ·) (ih st1).1, (ih st1).2⟩
    | true =>
      rw [gate_loop_cons_build_ok w b st st1 p rest hsb (hb p),
        gate_result_cons_true w st st1 p rest hsb,
        checks_of_cons_check, checks_of_cons_build,
        builds_of_cons_check, builds_of_cons_build]
      exact ⟨congrArg (p :: ·) (ih st1).1, congrArg (p :: ·) (ih st1).2⟩

lemma gate_loop_nogate_spec (w : HashWorld) (b : List String → Except Unit Unit)
    (hb : ∀ p, b p = Except.ok ()) :
    ∀ (l : List (List String)) (st : String → Option String),
      checks_of (gate_loop w false b st l).1 = [] ∧
        builds_of (gate_loop w false b st l).1 = l := by
  intro l
  induction l with
  | nil =>
    intro st
    rw [gate_loop_nil]
    exact ⟨rfl, rfl⟩
  | cons p rest ih =>
    intro st
    rw [gate_loop_cons_nogate_ok w b st p rest (hb p),
      checks_of_cons_build, builds_of_cons_build]
    exact ⟨(ih st).1, congrArg (p :: ·) (ih st).2⟩

lemma gate_result_sublist (w : HashWorld) :
    ∀ (l : List (List String)) (st : String → Option String),
      (gate_result w st l).Sublist l := by
  intro l
  induction l with
  | nil => intro st; rw [gate_result_nil]
  | cons p rest ih =>
    intro st
    rcases hsb : should_build_hash_cache w st p with ⟨bb, st1⟩
    cases bb with
    | false =>
      rw [gate_result_cons_false w st st1 p rest hsb]
      exact (ih st1).cons p
    | true =>
      rw [gate_result_cons_true w st st1 p rest hsb]
      exact (ih st1).cons₂ p


lemma schedule_stage_full (a : Args) (e : Env) (hash_on : Bool)
    (store : String → Option String) (h : a.full = true) :
    schedule_stage a e hash_on store =
      ([Ev.full_build_run], store, ext_flow e.full_build_res) := by
  unfold schedule_stage
  rw [if_pos h]

lemma schedule_stage_auto_full (a : Args) (e : Env) (hash_on : Bool)
    (store : String → Option String) (h1 : a.full = false)
    (h2 : (!a.no_auto_full && looks_like_fresh_clone e.sentinel_ex) = true) :
    schedule_stage a e hash_on store =
      ([Ev.full_build_run], store, ext_flow e.full_build_res) := by
  unfold schedule_stage
  rw [if_neg (by simp [h1]), if_pos h2]

lemma schedule_stage_hash (a : Args) (e : Env) (store : String → Option String)
    (h1 : a.full = false)
    (h2 : (!a.no_auto_full && looks_like_fresh_clone e.sentinel_ex) = false) :
    schedule_stage a e true store =
      (if e.csprojs.sort (· ≤ ·) = [] then ([], store, Flow.next)
       else gate_loop e.hw true e.build_res store (e.csprojs.sort (· ≤ ·))) := by
  unfold schedule_stage
  rw [if_neg (by simp [h1]), if_neg (by simp [h2]), if_pos rfl]

lemma schedule_stage_diff (a : Args) (e : Env) (store : String → Option String)
    (h1 : a.full = false)
    (h2 : (!a.no_auto_full && looks_like_fresh_clone e.sentinel_ex) = false) :
    schedule_stage a e false store =
      (if git_changed_files e.git_out = [] then ([Ev.git_status], store, Flow.next)
       else if find_csproj_owners e.fs ((git_changed_files e.git_out).map path_segs) = [] then
         ([Ev.git_status, Ev.resolve_owners], store, Flow.next)
       else
         (Ev.git_status :: Ev.resolve_owners ::
           (gate_loop e.hw false e.build_res store
             (find_csproj_owners e.fs ((git_changed_files e.git_out).map path_segs))).1,
          (gate_loop e.hw false e.build_res store
            (find_csproj_owners e.fs ((git_changed_files e.git_out).map path_segs))).2)) := by
  unfold schedule_stage
  rw [if_neg (by simp [h1]), if_neg (by simp [h2]), if_neg (by simp)]

lemma find_csproj_owners_nil (fs : Finset (List String)) :
    find_csproj_owners fs [] = [] := by
  unfold find_csproj_owners
  rw [List.foldl_nil, Finset.sort_empty]

lemma builds_of_cons_git (l : List Ev) : builds_of (Ev.git_status :: l) = builds_of l := rfl

lemma builds_of_cons_resolve (l : List Ev) :
    builds_of (Ev.resolve_owners :: l) = builds_of l := rfl

lemma checks_of_cons_git (l : List Ev) : checks_of (Ev.git_status :: l) = checks_of l := rfl

lemma checks_of_cons_resolve (l : List Ev) :
    checks_of (Ev.resolve_owners :: l) = checks_of l := rfl

/-- C4: the scheduling decision order. (a) With the full flag set, or
fresh-environment detection firing while auto-full-rebuild is not
disabled, the stage performs exactly one full build: its trace is the
single full-build event, so neither the change detector, the owner
resolver nor the fingerprint gate is consulted, and the cache store is
untouched. (b) Otherwise with the hash cache enabled the gate is
consulted exactly on the whole sorted workspace unit enumeration, the
built units are exactly those the threaded gate admits, and no git
status or owner resolution happens. (c) Otherwise the built units are
exactly the owners of the change set, with no fingerprint gating. In
every mode the built units are deduplicated and processed in sorted
order, so no unit is built twice. -/
theorem schedule_stage_decision_order (a : Args) (e : Env) (hash_on : Bool)
    (store : String → Option String) (hb : ∀ p, e.build_res p = Except.ok ()) :
    ((a.full || (!a.no_auto_full && looks_like_fresh_clone e.sentinel_ex)) = true →
        (schedule_stage a e hash_on store).1 = [Ev.full_build_run] ∧
          (schedule_stage a e hash_on store).2.1 = store) ∧
      ((a.full || (!a.no_auto_full && looks_like_fresh_clone e.sentinel_ex)) = false →
        hash_on = true →
        checks_of (schedule_stage a e hash_on store).1 = e.csprojs.sort (· ≤ ·) ∧
          builds_of (schedule_stage a e hash_on store).1 =
            gate_result e.hw store (e.csprojs.sort (· ≤ ·)) ∧
          Ev.git_status ∉ (schedule_stage a e hash_on store).1 ∧
          Ev.resolve_owners ∉ (schedule_stage a e hash_on store).1) ∧
      ((a.full || (!a.no_auto_full && looks_like_fresh_clone e.sentinel_ex)) = false →
        hash_on = false →
        builds_of (schedule_stage a e hash_on store).1 =
          find_csproj_owners e.fs ((git_changed_files e.git_out).map path_segs) ∧
          checks_of (schedule_stage a e hash_on store).1 = []) ∧
      (builds_of (schedule_stage a e hash_on store).1).Nodup ∧
      (builds_of (schedule_stage a e hash_on store).1).Sorted (· ≤ ·) := by
  by_cases hf : a.full = true
  · rw [schedule_stage_full a e hash_on store hf]
    refine ⟨fun _ => ⟨rfl, rfl⟩, fun hc _ => ?_, fun hc _ => ?_, by simp [builds_of],
      by simp [builds_of]⟩
    · rw [hf] at hc; cases hc
    · rw [hf] at hc; cases hc
  · have hf' : a.full = false := by revert hf; cases a.full <;> simp
    by_cases ha : (!a.no_auto_full && looks_like_fresh_clone e.sentinel_ex) = true
    · rw [schedule_stage_auto_full a e hash_on store hf' ha]
      refine ⟨fun _ => ⟨rfl, rfl⟩, fun hc _ => ?_, fun hc _ => ?_, by simp [builds_of],
        by simp [builds_of]⟩
      · rw [hf', ha] at hc; cases hc
      · rw [hf', ha] at hc; cases hc
    · have ha' : (!a.no_auto_full && looks_like_fresh_clone e.sentinel_ex) = false := by
        revert ha
        cases h : (!a.no_auto_full && looks_like_fresh_clone e.sentinel_ex) <;> simp
      cases hash_on with
      | true =>
        rw [schedule_stage_hash a e store hf' ha']
        by_cases hp : e.csprojs.sort (· ≤ ·) = []
        · rw [if_pos hp]
          refine ⟨fun hc => ?_, fun _ _ => ?_, fun _ hc => ?_, by simp [builds_of],
            by simp [builds_of]⟩
          · rw [hf', ha'] at hc; cases hc
          · rw [hp, gate_result_nil]
            refine ⟨rfl, rfl, ?_, ?_⟩ <;> simp [checks_of]
          · cases hc
        · rw [if_neg hp]
          have hspec := gate_loop_hash_spec e.hw e.build_res hb (e.csprojs.sort (· ≤ ·)) store
          refine ⟨fun hc => ?_, fun _ _ => ?_, fun _ hc => ?_, ?_, ?_⟩
          · rw [hf', ha'] at hc; cases hc
          · refine ⟨hspec.1, hspec.2, ?_, ?_⟩
            · intro hmem
              rcases gate_loop_mem_shape e.hw true e.build_res _ _ _ hmem with ⟨u, hu⟩ | ⟨u, hu⟩
              · cases hu
              · cases hu
            · intro hmem
              rcases gate_loop_mem_shape e.hw true e.build_res _ _ _ hmem with ⟨u, hu⟩ | ⟨u, hu⟩
              · cases hu
              · cases hu
          · cases hc
          · rw [hspec.2]
            exact (gate_result_sublist e.hw _ store).nodup (Finset.sort_nodup _ _)
          · rw [hspec.2]
            exact List.Pairwise.sublist (gate_result_sublist e.hw _ store)
              (Finset.sort_sorted _ _)
      | false =>
        rw [schedule_stage_diff a e store hf' ha']
        by_cases hch : git_changed_files e.git_out = []
        · rw [if_pos hch]
          refine ⟨fun hc => ?_, fun _ hc => ?_, fun _ _ => ?_, by simp [builds_of],
            by simp [builds_of]⟩
          · rw [hf', ha'] at hc; cases hc
          · cases hc
          · rw [hch]
            refine ⟨?_, rfl⟩
            rw [show ([] : List String).map path_segs = [] from rfl, find_csproj_owners_nil]
            rfl
        · rw [if_neg hch]
          by_cases how : find_csproj_owners e.fs
              ((git_changed_files e.git_out).map path_segs) = []
          · rw [if_pos how]
            refine ⟨fun hc => ?_, fun _ hc => ?_, fun _ _ => ?_, by simp [builds_of],
              by simp [builds_of]⟩
            · rw [hf', ha'] at hc; cases hc
            · cases hc
            · rw [how]
              exact ⟨rfl, rfl⟩
          · rw [if_neg how]
            have hspec := gate_loop_nogate_spec e.hw e.build_res hb
              (find_csproj_owners e.fs ((git_changed_files e.git_out).map path_segs)) store
            refine ⟨fun hc => ?_, fun _ hc => ?_, fun _ _ => ?_, ?_, ?_⟩
            · rw [hf', ha'] at hc; cases hc
            · cases hc
            · rw [builds_of_cons_git, builds_of_cons_resolve,
                checks_of_cons_git, checks_of_cons_resolve]
              exact ⟨hspec.2, hspec.1⟩
            · rw [builds_of_cons_git, builds_of_cons_resolve, hspec.2]
              exact Finset.sort_nodup _ _
            · rw [builds_of_cons_git, builds_of_cons_resolve, hspec.2]
              exact Finset.sort_sorted _ _

/-- Witness for C4 at a concrete invocation: the full flag is set, so
the stage performs one full build, and the built-unit list is empty,
deduplicated and sorted. -/
theorem schedule_stage_decision_order_witness :
    ((true || (!false && looks_like_fresh_clone (fun _ => false))) = true →
        (schedule_stage ⟨true, false, false, false, false, false, false⟩
            ⟨false, fun _ => false, false, false, false, false, false, [], ∅, ∅,
              hash_world_a, fun _ => none, Except.ok 0, Except.ok 0,
              fun _ => Except.ok (), Except.ok 0⟩ false (fun _ => none)).1 =
          [Ev.full_build_run] ∧
          (schedule_stage ⟨true, false, false, false, false, false, false⟩
            ⟨false, fun _ => false, false, false, false, false, false, [], ∅, ∅,
              hash_world_a, fun _ => none, Except.ok 0, Except.ok 0,
              fun _ => Except.ok (), Except.ok 0⟩ false (fun _ => none)).2.1 =
            (fun _ => none)) ∧
      ((true || (!false && looks_like_fresh_clone (fun _ => false))) = false →
        false = true →
        checks_of (schedule_stage ⟨true, false, false, false, false, false, false⟩
            ⟨false, fun _ => false, false, false, false, false, false, [], ∅, ∅,
              hash_world_a, fun _ => none, Except.ok 0, Except.ok 0,
              fun _ => Except.ok (), Except.ok 0⟩ false (fun _ => none)).1 =
          (∅ : Finset (List String)).sort (· ≤ ·) ∧
          builds_of (schedule_stage ⟨true, false, false, false, false, false, false⟩
            ⟨false, fun _ => false, false, false, false, false, false, [], ∅, ∅,
              hash_world_a, fun _ => none, Except.ok 0, Except.ok 0,
              fun _ => Except.ok (), Except.ok 0⟩ false (fun _ => none)).1 =
            gate_result hash_world_a (fun _ => none) ((∅ : Finset (List String)).sort (· ≤ ·)) ∧
          Ev.git_status ∉ (schedule_stage ⟨true, false, false, false, false, false, false⟩
            ⟨false, fun _ => false, false, false, false, false, false, [], ∅, ∅,
              hash_world_a, fun _ => none, Except.ok 0, Except.ok 0,
              fun _ => Except.ok (), Except.ok 0⟩ false (fun _ => none)).1 ∧
          Ev.resolve_owners ∉ (schedule_stage ⟨true, false, false, false, false, false, false⟩
            ⟨false, fun _ => false, false, false, false, false, false, [], ∅, ∅,
              hash_world_a, fun _ => none, Except.ok 0, Except.ok 0,
              fun _ => Except.ok (), Except.ok 0⟩ false (fun _ => none)).1) ∧
      ((true || (!false && looks_like_fresh_clone (fun _ => false))) = false →
        false = false →
        builds_of (schedule_stage ⟨true, false, false, false, false, false, false⟩
            ⟨false, fun _ => false, false, false, false, false, false, [], ∅, ∅,
              hash_world_a, fun _ => none, Except.ok 0, Except.ok 0,
              fun _ => Except.ok (), Except.ok 0⟩ false (fun _ => none)).1 =
          find_csproj_owners ∅ ((git_changed_files []).map path_segs) ∧
          checks_of (schedule_stage ⟨true, false, false, false, false, false, false⟩
            ⟨false, fun _ => false, false, false, false, false, false, [], ∅, ∅,
              hash_world_a, fun _ => none, Except.ok 0, Except.ok 0,
              fun _ => Except.ok (), Except.ok 0⟩ false (fun _ => none)).1 = []) ∧
      (builds_of (schedule_stage ⟨true, false, false, false, false, false, false⟩
          ⟨false, fun _ => false, false, false, false, false, false, [], ∅, ∅,
            hash_world_a, fun _ => none, Except.ok 0, Except.ok 0,
            fun _ => Except.ok (), Except.ok 0⟩ false (fun _ => none)).1).Nodup ∧
      (builds_of (schedule_stage ⟨true, false, false, false, false, false, false⟩
          ⟨false, fun _ => false, false, false, false, false, false, [], ∅, ∅,
            hash_world_a, fun _ => none, Except.ok 0, Except.ok 0,
            fun _ => Except.ok (), Except.ok 0⟩ false (fun _ => none)).1).Sorted (· ≤ ·) :=
  schedule_stage_decision_order ⟨true, false, false, false, false, false, false⟩
    ⟨false, fun _ => false, false, false, false, false, false, [], ∅, ∅,
      hash_world_a, fun _ => none, Except.ok 0, Except.ok 0,
      fun _ => Except.ok (), Except.ok 0⟩ false (fun _ => none) (fun _ => rfl)

/-- C6: fresh-environment detection counts how many of the fixed list
of five sentinel artifacts exist and reports a never-built workspace
exactly when fewer than four exist; and whenever that detection fires
with auto-full-rebuild not disabled, the scheduling stage performs the
full-rebuild path whatever the change set, the cache state or anything
else in the environment. -/
theorem looks_like_fresh_clone_spec :
    sentinel_paths.length = 5 ∧
      (∀ ex, looks_like_fresh_clone ex = true ↔ sentinel_paths.countP ex < 4) ∧
      (∀ (a : Args) (e : Env) (hash_on : Bool) (store : String → Option String),
        looks_like_fresh_clone e.sentinel_ex = true → a.no_auto_full = false →
        (schedule_stage a e hash_on store).1 = [Ev.full_build_run]) := by
  refine ⟨rfl, fun ex => by unfold looks_like_fresh_clone; exact decide_eq_true_iff, ?_⟩
  intro a e hash_on store hfresh hauto
  by_cases hf : a.full = true
  · rw [schedule_stage_full a e hash_on store hf]
  · have hf' : a.full = false := by revert hf; cases a.full <;> simp
    rw [schedule_stage_auto_full a e hash_on store hf' (by rw [hauto, hfresh]; rfl)]


lemma schedule_stage_not_cleanup (a : Args) (e : Env) (hash_on : Bool)
    (store : String → Option String) :
    ∀ ev ∈ (schedule_stage a e hash_on store).1, is_cleanup ev = false := by
  intro ev h
  have hshape : ev = Ev.full_build_run ∨ ev = Ev.git_status ∨ ev = Ev.resolve_owners ∨
      (∃ u, ev = Ev.fingerprint_check u) ∨ (∃ u, ev = Ev.build_unit u) := by
    by_cases hf : a.full = true
    · rw [schedule_stage_full a e hash_on store hf] at h
      simp only [List.mem_singleton] at h
      exact Or.inl h
    · have hf' : a.full = false := by revert hf; cases a.full <;> simp
      by_cases ha : (!a.no_auto_full && looks_like_fresh_clone e.sentinel_ex) = true
      · rw [schedule_stage_auto_full a e hash_on store hf' ha] at h
        simp only [List.mem_singleton] at h
        exact Or.inl h
      · have ha' : (!a.no_auto_full && looks_like_fresh_clone e.sentinel_ex) = false := by
          revert ha
          cases (!a.no_auto_full && looks_like_fresh_clone e.sentinel_ex) <;> simp
        cases hash_on with
        | true =>
          rw [schedule_stage_hash a e store hf' ha'] at h
          by_cases hp : e.csprojs.sort (· ≤ ·) = []
          · rw [if_pos hp] at h
            cases h
          · rw [if_neg hp] at h
            rcases gate_loop_mem_shape e.hw true e.build_res _ _ _ h with h1 | h1
            · exact Or.inr (Or.inr (Or.inr (Or.inl h1)))
            · exact Or.inr (Or.inr (Or.inr (Or.inr h1)))
        | false =>
          rw [schedule_stage_diff a e store hf' ha'] at h
          by_cases hch : git_changed_files e.git_out = []
          · rw [if_pos hch] at h
            simp only [List.mem_singleton] at h
            exact Or.inr (Or.inl h)
          · rw [if_neg hch] at h
            by_cases how : find_csproj_owners e.fs
                ((git_changed_files e.git_out).map path_segs) = []
            · rw [if_pos how] at h
              rcases List.mem_cons.mp h with h1 | h1
              · exact Or.inr (Or.inl h1)
              · simp only [List.mem_singleton] at h1
                exact Or.inr (Or.inr (Or.inl h1))
            · rw [if_neg how] at h
              rcases List.mem_cons.mp h with h1 | h1
              · exact Or.inr (Or.inl h1)
              · rcases List.mem_cons.mp h1 with h2 | h2
                · exact Or.inr (Or.inr (Or.inl h2))
                · rcases gate_loop_mem_shape e.hw false e.build_res _ _ _ h2 with h3 | h3
                  · exact Or.inr (Or.inr (Or.inr (Or.inl h3)))
                  · exact Or.inr (Or.inr (Or.inr (Or.inr h3)))
  rcases hshape with h1 | h1 | h1 | ⟨u, h1⟩ | ⟨u, h1⟩ <;> rw [h1] <;> rfl

lemma after_schedule_mem (a : Args) (e : Env)
    (r : List Ev × (String → Option String) × Flow) :
    ∀ ev ∈ (after_schedule a e r).1, ev ∈ r.1 ∨ ev = Ev.tests_run := by
  intro ev h
  rcases r with ⟨evs, st, f⟩
  cases f with
  | exc => exact Or.inl h
  | ret rc => exact Or.inl h
  | next =>
    simp only [after_schedule] at h
    by_cases ht : a.test = true
    · rw [if_pos ht] at h
      split at h
      · rcases List.mem_append.mp h with h1 | h1
        · exact Or.inl h1
        · simp only [List.mem_singleton] at h1
          exact Or.inr h1
      · split at h
        · rcases List.mem_append.mp h with h1 | h1
          · exact Or.inl h1
          · simp only [List.mem_singleton] at h1
            exact Or.inr h1
        · rcases List.mem_append.mp h with h1 | h1
          · exact Or.inl h1
          · simp only [List.mem_singleton] at h1
            exact Or.inr h1
    · rw [if_neg ht] at h
      exact Or.inl h

lemma pre_events_mem (a : Args) (e : Env) (ev : Ev) (h : ev ∈ pre_events a e) :
    ev = Ev.init_cache := by
  unfold pre_events at h
  by_cases hi : do_init a e = true
  · rw [if_pos hi] at h
    simpa using h
  · rw [if_neg hi] at h
    cases h

lemma try_body_not_cleanup (a : Args) (e : Env) :
    ∀ ev ∈ (try_body a e).1, is_cleanup ev = false := by
  intro ev h
  have hsch := schedule_stage_not_cleanup a e (hash_cache_enabled a e) (store_after_setup a e)
  have hbase : ev ∈ pre_events a e ∨ ev = Ev.format_run ∨ ev = Ev.tests_run ∨
      ev ∈ (schedule_stage a e (hash_cache_enabled a e) (store_after_setup a e)).1 := by
    unfold try_body at h
    by_cases hfmt : a.format = true
    · rw [if_pos hfmt] at h
      split at h
      · rcases List.mem_append.mp h with h1 | h1
        · exact Or.inl h1
        · simp only [List.mem_singleton] at h1
          exact Or.inr (Or.inl h1)
      · split at h
        · rcases List.mem_append.mp h with h1 | h1
          · exact Or.inl h1
          · simp only [List.mem_singleton] at h1
            exact Or.inr (Or.inl h1)
        · rcases List.mem_append.mp h with h1 | h1
          · rcases List.mem_append.mp h1 with h2 | h2
            · exact Or.inl h2
            · simp only [List.mem_singleton] at h2
              exact Or.inr (Or.inl h2)
          · rcases after_schedule_mem a e _ ev h1 with h2 | h2
            · exact Or.inr (Or.inr (Or.inr h2))
            · exact Or.inr (Or.inr (Or.inl h2))
    · rw [if_neg hfmt] at h
      rcases List.mem_append.mp h with h1 | h1
      · exact Or.inl h1
      · rcases after_schedule_mem a e _ ev h1 with h2 | h2
        · exact Or.inr (Or.inr (Or.inr h2))
        · exact Or.inr (Or.inr (Or.inl h2))
  rcases hbase with h1 | h1 | h1 | h1
  · rw [pre_events_mem a e ev h1]
    rfl
  · rw [h1]
    rfl
  · rw [h1]
    rfl
  · exact hsch ev h1

/-- C2: on every code path out of the try block — normal fall-through,
every early return, and a propagated exception — the PostActions events
(the codegen-patch restore when the patch was applied, the
directory-casing repair, the ownership repair) run exactly once, after
everything the try block did: the whole trace of main is the try-block
trace followed by the PostActions block, the try block itself never
emits a cleanup event, each of the two unconditional cleanup passes
appears exactly once in the whole trace, and the patch restore appears
exactly once when the patch was applied and never otherwise. -/
theorem post_actions_always_run (a : Args) (e : Env) :
    (main_model a e).1 = (try_body a e).1 ++ post_actions (codegen_patch_applied a e) ∧
      (∀ ev ∈ (try_body a e).1, is_cleanup ev = false) ∧
      (main_model a e).1.count Ev.fix_case = 1 ∧
      (main_model a e).1.count Ev.fix_ownership = 1 ∧
      (main_model a e).1.count Ev.restore_patch =
        (if codegen_patch_applied a e then 1 else 0) := by
  have hnc := try_body_not_cleanup a e
  have hnot : ∀ ev, is_cleanup ev = true → ev ∉ (try_body a e).1 := by
    intro ev hev hmem
    rw [hnc ev hmem] at hev
    cases hev
  have hcount : ∀ ev, is_cleanup ev = true →
      (main_model a e).1.count ev = (post_actions (codegen_patch_applied a e)).count ev := by
    intro ev hev
    show ((try_body a e).1 ++ post_actions (codegen_patch_applied a e)).count ev = _
    rw [List.count_append, List.count_eq_zero.mpr (hnot ev hev), Nat.zero_add]
  refine ⟨rfl, hnc, ?_, ?_, ?_⟩
  · rw [hcount Ev.fix_case rfl]
    unfold post_actions
    by_cases hp : codegen_patch_applied a e = true
    · rw [if_pos hp]
      decide
    · rw [if_neg hp]
      decide
  · rw [hcount Ev.fix_ownership rfl]
    unfold post_actions
    by_cases hp : codegen_patch_applied a e = true
    · rw [if_pos hp]
      decide
    · rw [if_neg hp]
      decide
  · rw [hcount Ev.restore_patch rfl]
    unfold post_actions
    by_cases hp : codegen_patch_applied a e = true
    · rw [if_pos hp, if_pos hp]
      decide
    · rw [if_neg hp, if_neg hp]
      decide

end SboxBuild
